import Mathlib

/-! Verification development for `upkeep.py` of AlexsLemonade/scrumlord.

Shallow embedding conventions:

* A calendar date is represented by its proleptic-Gregorian ordinal (a `Nat`),
  exactly as in Python's `datetime.date.toordinal` (day 1 = 0001-01-01, a
  Monday); stepping one calendar day (`date += timedelta(days=1)`) is `+ 1`.
  Structured dates (year, month, day), as decoded from issue titles, are the
  `YMD` structure, bridged to ordinals by `toOrdinal`.
* The external jurisdiction calendar `PA_HOLIDAYS` of the `holidays` package
  is an abstract oracle `official : Nat → String` giving the official holiday
  name for an ordinal, with `""` for dates carrying no holiday (this mirrors
  `PA_HOLIDAYS.get(date, "")`).
* The holiday file `holidays.txt` appears as its list of lines, issues appear
  as their title strings, `get_today()` as an explicit `today` ordinal.
* The generator `get_upcoming_workdays` steps one day per loop iteration; the
  embedding bounds the number of day steps by an explicit `fuel` argument
  (the Python generator does not terminate when too few workdays follow
  `today`, so results are meaningful exactly when the `fuel`-day window holds
  enough workdays, which the theorems assume).
* `datetime.date(y, m, d)` raising `ValueError`, and `issue_title_to_date`
  returning `None`, are the `TitleDate.valueError` and `TitleDate.noDate`
  results; functions that let the `ValueError` escape live in `Except Unit`.
-/

/-- Python `date.weekday()` of an ordinal: Monday = 0, …, Sunday = 6. -/
def pyWeekday (n : Nat) : Nat := (n + 6) % 7

/-- The `holidays.WEEKEND` tuple for the US calendar: Saturday (5) and Sunday (6). -/
def WEEKEND : List Nat := [5, 6]

/-- Python weekday number of Saturday. -/
def saturday : Nat := 5

/-- Python weekday number of Sunday. -/
def sunday : Nat := 6

/-- A structured calendar date as carried by `datetime.date`. -/
structure YMD where
  year : Nat
  month : Nat
  day : Nat
deriving DecidableEq

/-- Gregorian leap-year rule (as used by `datetime`). -/
def isLeap (y : Nat) : Bool := y % 4 == 0 && (y % 100 != 0 || y % 400 == 0)

/-- Number of days of month `m` in year `y`. -/
def daysInMonth (y m : Nat) : Nat :=
  if m = 2 then (if isLeap y then 29 else 28)
  else if m = 4 ∨ m = 6 ∨ m = 9 ∨ m = 11 then 30
  else 31

/-- Days in year `y` strictly before month `m` (for `1 ≤ m ≤ 12`). -/
def daysBeforeMonth (y : Nat) : Nat → Nat
  | 0 => 0
  | 1 => 0
  | m + 1 => daysBeforeMonth y m + daysInMonth y m

/-- Python's `date.toordinal`: 0001-01-01 is day 1. -/
def toOrdinal (d : YMD) : Nat :=
  365 * (d.year - 1) + ((d.year - 1) / 4 + (d.year - 1) / 400 - (d.year - 1) / 100)
    + daysBeforeMonth d.year d.month + d.day

/-- The validity check performed by the `datetime.date` constructor
(`MINYEAR = 1`, `MAXYEAR = 9999`). -/
def dateValid (y m d : Nat) : Bool :=
  decide (1 ≤ y ∧ y ≤ 9999 ∧ 1 ≤ m ∧ m ≤ 12 ∧ 1 ≤ d ∧ d ≤ daysInMonth y m)

/-- The decimal digit characters, as produced when formatting a date. -/
def digitChar : Nat → Char
  | 0 => '0'
  | 1 => '1'
  | 2 => '2'
  | 3 => '3'
  | 4 => '4'
  | 5 => '5'
  | 6 => '6'
  | 7 => '7'
  | 8 => '8'
  | 9 => '9'
  | _ => '*'

/-- The `[0-9]` character class of the title regex, returning the digit value. -/
def charDigit (c : Char) : Option Nat :=
  if c = '0' then some 0
  else if c = '1' then some 1
  else if c = '2' then some 2
  else if c = '3' then some 3
  else if c = '4' then some 4
  else if c = '5' then some 5
  else if c = '6' then some 6
  else if c = '7' then some 7
  else if c = '8' then some 8
  else if c = '9' then some 9
  else none

/-- The anchored regex match `re.compile(r"([0-9]{4})-([0-9]{2})-([0-9]{2}):").match(title)`: anchored
match of the title's first eleven characters, returning the three captured
integers. -/
def matchDate (t : String) : Option (Nat × Nat × Nat) :=
  match t.data with
  | c0 :: c1 :: c2 :: c3 :: c4 :: c5 :: c6 :: c7 :: c8 :: c9 :: c10 :: _ =>
    (charDigit c0).bind fun a =>
    (charDigit c1).bind fun b =>
    (charDigit c2).bind fun c =>
    (charDigit c3).bind fun d =>
    (charDigit c5).bind fun e =>
    (charDigit c6).bind fun f =>
    (charDigit c8).bind fun g =>
    (charDigit c9).bind fun h =>
    if c4 = '-' ∧ c7 = '-' ∧ c10 = ':' then
      some (((a * 10 + b) * 10 + c) * 10 + d, e * 10 + f, g * 10 + h)
    else none
  | _ => none

/-- Result of `issue_title_to_date`: the implicit `None` return on a failed
regex match, the `ValueError` of `datetime.date` on out-of-range numbers, or
the constructed date. -/
inductive TitleDate where
  | noDate
  | valueError
  | found (d : YMD)
deriving DecidableEq

/-- Function `issue_title_to_date(title)` from `upkeep.py`. -/
def issue_title_to_date (t : String) : TitleDate :=
  match matchDate t with
  | none => .noDate
  | some (y, m, d) => if dateValid y m d then .found ⟨y, m, d⟩ else .valueError

/-- Last two decimal digits of `n`, zero padded (`%02d`-style for `n ≤ 99`). -/
def pad2 (n : Nat) : List Char := [digitChar (n / 10), digitChar (n % 10)]

/-- Last four decimal digits of `n`, zero padded (`%04d`-style for
`n ≤ 9999`). -/
def pad4 (n : Nat) : List Char :=
  [digitChar (n / 1000), digitChar (n / 100 % 10), digitChar (n / 10 % 10), digitChar (n % 10)]

/-- The characters of `str(date)`, i.e. the ISO `YYYY-MM-DD` form. -/
def isoChars (d : YMD) : List Char :=
  pad4 d.year ++ ('-' :: pad2 d.month) ++ ('-' :: pad2 d.day)

/-- Full weekday name, as `strftime("%A")`, indexed by `pyWeekday`. -/
def weekdayName : Nat → String
  | 0 => "Monday"
  | 1 => "Tuesday"
  | 2 => "Wednesday"
  | 3 => "Thursday"
  | 4 => "Friday"
  | 5 => "Saturday"
  | _ => "Sunday"

/-- Full month name, as `strftime("%B")`. -/
def monthName : Nat → String
  | 1 => "January"
  | 2 => "February"
  | 3 => "March"
  | 4 => "April"
  | 5 => "May"
  | 6 => "June"
  | 7 => "July"
  | 8 => "August"
  | 9 => "September"
  | 10 => "October"
  | 11 => "November"
  | _ => "December"

/-- The human-readable part of a new issue title after the colon:
`strftime(" e-scrum for %A, %B %-d, %Y")` (no leading zeros on day and
year). -/
def titleTail (d : YMD) : String :=
  " e-scrum for " ++ weekdayName (pyWeekday (toOrdinal d)) ++ ", " ++ monthName d.month
    ++ " " ++ Nat.repr d.day ++ ", " ++ Nat.repr d.year

/-- The title built by `create_scrum_issue`:
`f"{date}: e-scrum for {date:%A, %B %-d, %Y}"`. -/
def create_scrum_issue_title (d : YMD) : String :=
  ⟨isoChars d ++ ':' :: (titleTail d).data⟩

/-- ASCII whitespace as stripped by Python's `str.strip()`. -/
def isSpaceChar (c : Char) : Bool :=
  c = ' ' || c = '\t' || c = '\n' || c = '\r' || c = '\x0b' || c = '\x0c'

/-- Python `str.strip()` on the character list. -/
def trimChars (l : List Char) : List Char :=
  ((l.dropWhile isSpaceChar).reverse.dropWhile isSpaceChar).reverse

/-- Python `str.strip()`. -/
def pyStrip (s : String) : String := ⟨trimChars s.data⟩

/-- Python `str.startswith("#")`. -/
def startsWithHash (s : String) : Bool :=
  match s.data with
  | '#' :: _ => true
  | _ => false

/-- Function `get_holidays()` from `upkeep.py`, over the lines of `holidays.txt`:
strip each line, keep the non-empty ones not starting with `#`. -/
def get_holidays (lines : List String) : List String :=
  (lines.map pyStrip).filter (fun l => !(l == "") && !(startsWithHash l))

/-- Python `str.replace(" (Observed)", "")` on a character list: remove every
(left-to-right, non-overlapping) occurrence of the pattern. -/
def removeObs : List Char → List Char
  | ' ' :: '(' :: 'O' :: 'b' :: 's' :: 'e' :: 'r' :: 'v' :: 'e' :: 'd' :: ')' :: rest =>
      removeObs rest
  | c :: rest => c :: removeObs rest
  | [] => []

/-- Python `name.replace(" (Observed)", "")`. -/
def pyReplaceObs (s : String) : String := ⟨removeObs s.data⟩

/-- Function `is_holiday(date)` from `upkeep.py`:
`PA_HOLIDAYS.get(date, "").replace(" (Observed)", "") in get_holidays()`. -/
def is_holiday (official : Nat → String) (lines : List String) (n : Nat) : Bool :=
  decide (pyReplaceObs (official n) ∈ get_holidays lines)

/-- Function `is_workday(date)` from `upkeep.py`:
`date.weekday() not in holidays.WEEKEND and not is_holiday(date)`. -/
def is_workday (official : Nat → String) (lines : List String) (n : Nat) : Bool :=
  !(WEEKEND.contains (pyWeekday n)) && !(is_holiday official lines n)

/-- The `while i < workdays_ahead` loop of `get_upcoming_workdays`: step one
day at a time, yielding workdays until `workdays_ahead` of them were yielded.
`fuel` bounds the number of day steps taken (the Python loop diverges when
too few workdays follow `date`). -/
def upcomingLoop (isWd : Nat → Bool) (date : Nat) (i ahead : Int) (fuel : Nat) : List Nat :=
  match fuel with
  | 0 => []
  | fuel + 1 =>
    if i < ahead then
      if isWd (date + 1) then (date + 1) :: upcomingLoop isWd (date + 1) (i + 1) ahead fuel
      else upcomingLoop isWd (date + 1) i ahead fuel
    else []

/-- Function `get_upcoming_workdays(workdays_ahead)` from `upkeep.py`: today first if a
workday (not counting toward the budget), then the loop. -/
def get_upcoming_workdays (isWd : Nat → Bool) (today : Nat) (ahead : Int) (fuel : Nat) :
    List Nat :=
  (if isWd today then [today] else []) ++ upcomingLoop isWd today 0 ahead fuel

/-- The set comprehension `{issue_title_to_date(issue.title) for issue in
issues}` restricted to its date elements (the `None` member of the Python set
never equals a date, so dropping it is invisible to the set difference); a
`ValueError` raised while decoding some title escapes. -/
def datesFromTitles : List String → Except Unit (List Nat)
  | [] => .ok []
  | t :: ts =>
    match issue_title_to_date t with
    | .noDate => datesFromTitles ts
    | .valueError => .error ()
    | .found d =>
      match datesFromTitles ts with
      | .error e => .error e
      | .ok r => .ok (toOrdinal d :: r)

/-- Function `get_future_dates_without_issues(issues, workdays_ahead)` from
`upkeep.py`: sorted set difference of the upcoming workdays and the decoded
title dates (`sorted(set(...) - {...})`, rendered as filter, duplicate
removal, and sorting). -/
def get_future_dates_without_issues (isWd : Nat → Bool) (today : Nat) (titles : List String)
    (ahead : Int) (fuel : Nat) : Except Unit (List Nat) :=
  match datesFromTitles titles with
  | .error e => .error e
  | .ok ds =>
    .ok ((((get_upcoming_workdays isWd today ahead fuel).filter
        (fun x => decide (¬ x ∈ ds))).dedup).insertionSort (· ≤ ·))

/-- Function `close_old_issues(issues, lifespan)` from `upkeep.py`, returning the
titles whose issues get a close request (`issue.edit(state="closed")`), in
processing order; a `ValueError` from `issue_title_to_date` escapes. -/
def close_old_issues (today : Nat) (titles : List String) (lifespan : Int) :
    Except Unit (List String) :=
  match titles with
  | [] => .ok []
  | t :: ts =>
    match issue_title_to_date t with
    | .noDate => close_old_issues today ts lifespan
    | .valueError => .error ()
    | .found d =>
      match close_old_issues today ts lifespan with
      | .error e => .error e
      | .ok r => .ok (if (today : Int) - (toOrdinal d : Int) > lifespan then t :: r else r)

/-- One observable tracker operation of a run. -/
inductive ScrumOp where
  | closeOp (title : String)
  | createOp (d : Nat)
deriving DecidableEq

/-- Whether an operation is a close request. -/
def ScrumOp.isCloseOp : ScrumOp → Bool
  | .closeOp _ => true
  | .createOp _ => false

/-- Whether an operation is a create request. -/
def ScrumOp.isCreateOp : ScrumOp → Bool
  | .closeOp _ => false
  | .createOp _ => true

/-- The `__main__` block of `upkeep.py`: first `close_old_issues` over the
open issues, then one `create_scrum_issue` per missing future date, as the
sequence of tracker operations of a completed run. -/
def mainTrace (isWd : Nat → Bool) (today : Nat) (titles : List String)
    (lifespan ahead : Int) (fuel : Nat) : Except Unit (List ScrumOp) :=
  match close_old_issues today titles lifespan with
  | .error e => .error e
  | .ok closed =>
    match get_future_dates_without_issues isWd today titles ahead fuel with
    | .error e => .error e
    | .ok ds => .ok (closed.map ScrumOp.closeOp ++ ds.map ScrumOp.createOp)

/-- Ascending list `[s, s+1, …, s+n-1]` (helper for characterising the
day-stepping loop). -/
def upRange (s n : Nat) : List Nat :=
  match n with
  | 0 => []
  | n + 1 => s :: upRange (s + 1) n

/-- Concrete `is_workday` for a holiday oracle reporting no holidays and an empty
holiday file (used to instantiate theorems at concrete runs). -/
def noHolidayWorkday : Nat → Bool := is_workday (fun _ => "") []

/-- The eleven characters of the literal `" (Observed)"`. -/
def obsChars : List Char := [' ', '(', 'O', 'b', 's', 'e', 'r', 'v', 'e', 'd', ')']

/-- Modelled from the spec's words, for comparison with the code: the
official holiday name with the literal *suffix* `" (Observed)"` stripped, if
present (the code instead removes every occurrence). -/
def stripObservedSuffixSpec (s : String) : String :=
  if obsChars.isSuffixOf s.data then ⟨s.data.take (s.data.length - 11)⟩ else s

/-- The schedule shape asserted by claim C2 for
`get_upcoming_workdays(workdays_ahead)`: it starts with today exactly when
today is a workday, continues with exactly `ahead` further dates — the
earliest workdays strictly after today, in ascending order — and never
contains a weekend day or a holiday. -/
def UpcomingClaim (official : Nat → String) (lines : List String) (today : Nat)
    (ahead : Int) (fuel : Nat) : Prop :=
  ((get_upcoming_workdays (is_workday official lines) today ahead fuel).head? = some today ↔
    is_workday official lines today = true) ∧
  (∃ rest, get_upcoming_workdays (is_workday official lines) today ahead fuel
        = (if is_workday official lines today then [today] else []) ++ rest
      ∧ (rest.length : Int) = ahead
      ∧ rest.Pairwise (· < ·)
      ∧ (∀ x ∈ rest, today < x ∧ is_workday official lines x = true)
      ∧ (∀ x, today < x → is_workday official lines x = true → x ∉ rest →
          ∀ y ∈ rest, y < x)) ∧
  (∀ x ∈ get_upcoming_workdays (is_workday official lines) today ahead fuel,
      pyWeekday x ≠ saturday ∧ pyWeekday x ≠ sunday ∧ is_holiday official lines x = false)

/-- The reconciliation result asserted by claim C1 for
`get_future_dates_without_issues(issues, workdays_ahead)`: it succeeds with a
strictly ascending duplicate-free list holding exactly the upcoming workdays
whose date no issue title decodes to, all of them genuine workdays. -/
def FutureDatesClaim (official : Nat → String) (lines : List String) (today : Nat)
    (titles : List String) (ahead : Int) (fuel : Nat) : Prop :=
  ∃ l, get_future_dates_without_issues (is_workday official lines) today titles ahead fuel
        = .ok l
    ∧ l.Pairwise (· < ·)
    ∧ (∀ x, x ∈ l ↔ (x ∈ get_upcoming_workdays (is_workday official lines) today ahead fuel
        ∧ ∀ t ∈ titles, ∀ d : YMD, issue_title_to_date t = .found d → toOrdinal d ≠ x))
    ∧ (∀ x ∈ l, is_workday official lines x = true)

theorem mem_upRange {x s n : Nat} : x ∈ upRange s n ↔ s ≤ x ∧ x < s + n := by
  induction n generalizing s with
  | zero => simp [upRange]
  | succ n ih =>
    simp only [upRange, List.mem_cons, ih]
    omega

theorem upRange_pairwise (s n : Nat) : (upRange s n).Pairwise (· < ·) := by
  induction n generalizing s with
  | zero => exact List.Pairwise.nil
  | succ n ih =>
    refine List.Pairwise.cons (fun x hx => ?_) (ih (s + 1))
    have := mem_upRange.1 hx
    omega

theorem upcomingLoop_eq (isWd : Nat → Bool) (ahead : Int) :
    ∀ (fuel : Nat) (date : Nat) (i : Int),
      upcomingLoop isWd date i ahead fuel =
        ((upRange (date + 1) fuel).filter isWd).take (ahead - i).toNat := by
  intro fuel
  induction fuel with
  | zero => intro date i; simp [upcomingLoop, upRange]
  | succ f ih =>
    intro date i
    by_cases hi : i < ahead
    · have hk : (ahead - i).toNat = (ahead - (i + 1)).toNat + 1 := by omega
      cases hw : isWd (date + 1) with
      | true =>
        simp only [upcomingLoop, hi, if_true, hw, upRange,
          List.filter_cons_of_pos hw, hk, List.take_succ_cons, ih]
      | false =>
        have hneg : ¬ isWd (date + 1) = true := by simp [hw]
        simp only [upcomingLoop, hi, if_true, hw, upRange,
          List.filter_cons_of_neg hneg, ih]
        simp
    · have hk : (ahead - i).toNat = 0 := by omega
      simp [upcomingLoop, hi, hk]

theorem get_upcoming_eq (isWd : Nat → Bool) (today : Nat) (ahead : Int) (fuel : Nat) :
    get_upcoming_workdays isWd today ahead fuel =
      (if isWd today then [today] else [])
        ++ ((upRange (today + 1) fuel).filter isWd).take ahead.toNat := by
  unfold get_upcoming_workdays
  rw [upcomingLoop_eq, Int.sub_zero]

theorem mem_upcoming {isWd : Nat → Bool} {today : Nat} {ahead : Int} {fuel : Nat} {x : Nat}
    (h : x ∈ get_upcoming_workdays isWd today ahead fuel) :
    isWd x = true ∧ today ≤ x := by
  rw [get_upcoming_eq] at h
  rcases List.mem_append.1 h with h | h
  · by_cases hw : isWd today
    · simp [hw] at h
      subst h
      exact ⟨hw, le_refl _⟩
    · simp [hw] at h
  · have h2 := List.mem_of_mem_take h
    have h3 := List.mem_filter.1 h2
    have h4 := mem_upRange.1 h3.1
    exact ⟨h3.2, by omega⟩

theorem upcoming_sorted (isWd : Nat → Bool) (today : Nat) (ahead : Int) (fuel : Nat) :
    (get_upcoming_workdays isWd today ahead fuel).Pairwise (· < ·) := by
  rw [get_upcoming_eq]
  have hrest : (((upRange (today + 1) fuel).filter isWd).take ahead.toNat).Pairwise
      (· < · : Nat → Nat → Prop) :=
    List.Pairwise.sublist ((List.take_sublist _ _).trans (List.filter_sublist _))
      (upRange_pairwise _ _)
  rcases hw : isWd today with _ | _
  · simpa using hrest
  · simp only [if_true, List.singleton_append]
    refine List.Pairwise.cons (fun x hx => ?_) hrest
    have h2 := List.mem_filter.1 (List.mem_of_mem_take hx)
    have h3 := mem_upRange.1 h2.1
    omega

theorem pairwise_lt_of_le_nodup {l : List Nat} (h1 : l.Pairwise (· ≤ ·)) (h2 : l.Nodup) :
    l.Pairwise (· < ·) :=
  (h1.and h2).imp (fun h => lt_of_le_of_ne h.1 h.2)

theorem datesFromTitles_ok {titles : List String}
    (hT : ∀ t ∈ titles, issue_title_to_date t ≠ TitleDate.valueError) :
    ∃ ds, datesFromTitles titles = .ok ds ∧
      ∀ x, x ∈ ds ↔ ∃ t ∈ titles, ∃ d, issue_title_to_date t = .found d ∧ toOrdinal d = x := by
  induction titles with
  | nil => exact ⟨[], rfl, by simp⟩
  | cons t ts ih =>
    obtain ⟨ds, hds, hmem⟩ := ih (fun u hu => hT u (List.mem_cons_of_mem _ hu))
    cases hdec : issue_title_to_date t with
    | noDate =>
      refine ⟨ds, by simp [datesFromTitles, hdec, hds], fun x => ?_⟩
      rw [hmem]
      constructor
      · rintro ⟨u, hu, d, hud, hx⟩
        exact ⟨u, List.mem_cons_of_mem _ hu, d, hud, hx⟩
      · rintro ⟨u, hu, d, hud, hx⟩
        rcases List.mem_cons.1 hu with rfl | hu
        · rw [hdec] at hud; cases hud
        · exact ⟨u, hu, d, hud, hx⟩
    | valueError => exact absurd hdec (hT t (List.mem_cons_self _ _))
    | found d =>
      refine ⟨toOrdinal d :: ds, by simp [datesFromTitles, hdec, hds], fun x => ?_⟩
      simp only [List.mem_cons, hmem]
      constructor
      · rintro (rfl | ⟨u, hu, d', hud, hx⟩)
        · exact ⟨t, Or.inl rfl, d, hdec, rfl⟩
        · exact ⟨u, Or.inr hu, d', hud, hx⟩
      · rintro ⟨u, hu, d', hud, hx⟩
        rcases hu with rfl | hu
        · rw [hdec] at hud
          cases hud
          exact Or.inl hx.symm
        · exact Or.inr ⟨u, hu, d', hud, hx⟩

theorem empty_not_mem_get_holidays (lines : List String) : "" ∉ get_holidays lines := by
  intro h
  have h2 := (List.mem_filter.1 h).2
  simp at h2

theorem contains_weekend_false_iff (w : Nat) : WEEKEND.contains w = false ↔ w ≠ 5 ∧ w ≠ 6 := by
  simp [WEEKEND, List.contains, List.elem_cons]

theorem is_workday_true_iff (official : Nat → String) (lines : List String) (n : Nat) :
    is_workday official lines n = true ↔
      pyWeekday n ≠ 5 ∧ pyWeekday n ≠ 6 ∧ is_holiday official lines n = false := by
  simp only [is_workday, Bool.and_eq_true, Bool.not_eq_true', contains_weekend_false_iff]
  tauto

theorem close_error_of_mem {t : String} {titles : List String} {today : Nat} {lifespan : Int}
    (ht : t ∈ titles) (he : issue_title_to_date t = TitleDate.valueError) :
    close_old_issues today titles lifespan = .error () := by
  induction titles with
  | nil => cases ht
  | cons u us ih =>
    rcases List.mem_cons.1 ht with rfl | hu
    · simp [close_old_issues, he]
    · cases hdec : issue_title_to_date u with
      | noDate => simp [close_old_issues, hdec, ih hu]
      | valueError => simp [close_old_issues, hdec]
      | found d => simp [close_old_issues, hdec, ih hu]

theorem charDigit_digitChar {n : Nat} (h : n < 10) : charDigit (digitChar n) = some n := by
  interval_cases n <;> rfl

theorem charDigit_inv {c : Char} {a : Nat} (h : charDigit c = some a) :
    a < 10 ∧ c = digitChar a := by
  unfold charDigit at h
  split_ifs at h <;> cases h <;> subst_vars <;> exact ⟨by omega, rfl⟩

theorem data_mk (l : List Char) : (String.mk l).data = l := rfl

theorem matchDate_iso {y m d : Nat} (s : List Char) (hy : y ≤ 9999) (hm : m ≤ 99)
    (hd : d ≤ 99) : matchDate ⟨isoChars ⟨y, m, d⟩ ++ ':' :: s⟩ = some (y, m, d) := by
  have h1 : y / 1000 < 10 := by omega
  have h2 : y / 100 % 10 < 10 := by omega
  have h3 : y / 10 % 10 < 10 := by omega
  have h4 : y % 10 < 10 := by omega
  have h5 : m / 10 < 10 := by omega
  have h6 : m % 10 < 10 := by omega
  have h7 : d / 10 < 10 := by omega
  have h8 : d % 10 < 10 := by omega
  simp only [matchDate, data_mk, isoChars, pad4, pad2, List.cons_append, List.nil_append,
    charDigit_digitChar h1, charDigit_digitChar h2, charDigit_digitChar h3,
    charDigit_digitChar h4, charDigit_digitChar h5, charDigit_digitChar h6,
    charDigit_digitChar h7, charDigit_digitChar h8, Option.some_bind]
  have : (((y / 1000 * 10 + y / 100 % 10) * 10 + y / 10 % 10) * 10 + y % 10 = y)
      ∧ (m / 10 * 10 + m % 10 = m) ∧ (d / 10 * 10 + d % 10 = d) := by omega
  simp [this.1, this.2.1, this.2.2]

theorem matchDate_some_inv {t : String} {y m d : Nat} (h : matchDate t = some (y, m, d)) :
    y ≤ 9999 ∧ m ≤ 99 ∧ d ≤ 99 ∧ ∃ s : List Char, t.data = isoChars ⟨y, m, d⟩ ++ ':' :: s := by
  obtain ⟨l⟩ := t
  rcases l with _ | ⟨c0, _ | ⟨c1, _ | ⟨c2, _ | ⟨c3, _ | ⟨c4, _ | ⟨c5, _ | ⟨c6, _ |
    ⟨c7, _ | ⟨c8, _ | ⟨c9, _ | ⟨c10, rest⟩⟩⟩⟩⟩⟩⟩⟩⟩⟩⟩ <;>
    simp only [matchDate, data_mk] at h <;> try exact Option.noConfusion h
  simp only [Option.bind_eq_some] at h
  obtain ⟨a, ha, b, hb, c, hc, dd, hdd, e, he, f, hf, g, hg, hh, hh2, h⟩ := h
  obtain ⟨ha1, rfl⟩ := charDigit_inv ha
  obtain ⟨hb1, rfl⟩ := charDigit_inv hb
  obtain ⟨hc1, rfl⟩ := charDigit_inv hc
  obtain ⟨hd1, rfl⟩ := charDigit_inv hdd
  obtain ⟨he1, rfl⟩ := charDigit_inv he
  obtain ⟨hf1, rfl⟩ := charDigit_inv hf
  obtain ⟨hg1, rfl⟩ := charDigit_inv hg
  obtain ⟨hh1, rfl⟩ := charDigit_inv hh2
  split at h
  case isFalse => exact Option.noConfusion h
  case isTrue hcond =>
    injection h with h
    simp only [Prod.mk.injEq] at h
    obtain ⟨rfl, rfl, rfl⟩ := h
    obtain ⟨rfl, rfl, rfl⟩ := hcond
    refine ⟨by omega, by omega, by omega, rest, ?_⟩
    have q1 : (((a * 10 + b) * 10 + c) * 10 + dd) / 1000 = a := by omega
    have q2 : (((a * 10 + b) * 10 + c) * 10 + dd) / 100 % 10 = b := by omega
    have q3 : (((a * 10 + b) * 10 + c) * 10 + dd) / 10 % 10 = c := by omega
    have q4 : (((a * 10 + b) * 10 + c) * 10 + dd) % 10 = dd := by omega
    have q5 : (e * 10 + f) / 10 = e := by omega
    have q6 : (e * 10 + f) % 10 = f := by omega
    have q7 : (g * 10 + hh) / 10 = g := by omega
    have q8 : (g * 10 + hh) % 10 = hh := by omega
    simp [isoChars, pad4, pad2, q1, q2, q3, q4, q5, q6, q7, q8]

theorem decode_noDate_iff {t : String} :
    issue_title_to_date t = .noDate ↔ matchDate t = none := by
  cases h : matchDate t with
  | none => simp [issue_title_to_date, h]
  | some r =>
    obtain ⟨y, m, d⟩ := r
    simp only [issue_title_to_date, h]
    constructor
    · intro h2
      split at h2 <;> exact TitleDate.noConfusion h2
    · intro h2
      exact Option.noConfusion h2

theorem upcoming_general (isWd : Nat → Bool) (today : Nat) (ahead : Int) (fuel : Nat)
    (h0 : 0 ≤ ahead)
    (hs : ahead.toNat ≤ ((upRange (today + 1) fuel).filter isWd).length) :
    ((get_upcoming_workdays isWd today ahead fuel).head? = some today ↔ isWd today = true) ∧
    (∃ rest, get_upcoming_workdays isWd today ahead fuel
          = (if isWd today then [today] else []) ++ rest
        ∧ (rest.length : Int) = ahead
        ∧ rest.Pairwise (· < ·)
        ∧ (∀ x ∈ rest, today < x ∧ isWd x = true)
        ∧ (∀ x, today < x → isWd x = true → x ∉ rest → ∀ y ∈ rest, y < x)) := by
  have heq := get_upcoming_eq isWd today ahead fuel
  have hmemrest : ∀ x ∈ ((upRange (today + 1) fuel).filter isWd).take ahead.toNat,
      today < x ∧ isWd x = true := by
    intro x hx
    have h2 := List.mem_filter.1 (List.mem_of_mem_take hx)
    have h3 := mem_upRange.1 h2.1
    exact ⟨by omega, h2.2⟩
  constructor
  · rw [heq]
    cases hw : isWd today with
    | true =>
      simp
    | false =>
      simp only [List.nil_append, if_neg (by simp : ¬ (false = true))]
      constructor
      · intro hh
        cases hx : ((upRange (today + 1) fuel).filter isWd).take ahead.toNat with
        | nil => rw [hx] at hh; exact Option.noConfusion hh
        | cons a tl =>
          rw [hx] at hh
          have ha : a ∈ ((upRange (today + 1) fuel).filter isWd).take ahead.toNat := by
            rw [hx]; exact List.mem_cons_self _ _
          have := (hmemrest a ha).1
          have ha2 : a = today := by
            have := Option.some.inj hh
            simpa using this
          omega
      · intro hh
        exact absurd hh (by simp [hw])
  · refine ⟨((upRange (today + 1) fuel).filter isWd).take ahead.toNat, heq, ?_, ?_,
      hmemrest, ?_⟩
    · have hlen : (((upRange (today + 1) fuel).filter isWd).take ahead.toNat).length
          = ahead.toNat := by
        rw [List.length_take]
        omega
      rw [hlen]
      omega
    · exact List.Pairwise.sublist ((List.take_sublist _ _).trans (List.filter_sublist _))
        (upRange_pairwise _ _)
    · intro x hx hwx hnx y hy
      by_cases hxw : x < today + 1 + fuel
      · have hxF : x ∈ (upRange (today + 1) fuel).filter isWd :=
          List.mem_filter.2 ⟨mem_upRange.2 ⟨by omega, by omega⟩, hwx⟩
        have hpwF : ((upRange (today + 1) fuel).filter isWd).Pairwise (· < ·) :=
          List.Pairwise.sublist (List.filter_sublist _) (upRange_pairwise _ _)
        rw [← List.take_append_drop ahead.toNat ((upRange (today + 1) fuel).filter isWd)]
          at hxF hpwF
        rcases List.mem_append.1 hxF with h | h
        · exact absurd h hnx
        · exact (List.pairwise_append.1 hpwF).2.2 y hy x h
      · have hyF := List.mem_filter.1 (List.mem_of_mem_take hy)
        have := mem_upRange.1 hyF.1
        omega

/-- C2: for `workdays_ahead ≥ 0`, when enough workdays follow today (at least
`workdays_ahead` within the stepping window), `get_upcoming_workdays` begins
with today exactly when today is a workday (not counting toward the budget),
followed by exactly `workdays_ahead` further dates — the earliest workdays
strictly after today, in ascending order — and never yields a weekend day or
an allow-listed holiday. -/
theorem C2_upcoming_workdays (official : Nat → String) (lines : List String)
    (today : Nat) (ahead : Int) (fuel : Nat) (h0 : 0 ≤ ahead)
    (hs : ahead.toNat ≤
      ((upRange (today + 1) fuel).filter (is_workday official lines)).length) :
    UpcomingClaim official lines today ahead fuel := by
  obtain ⟨hhead, hrest⟩ :=
    upcoming_general (is_workday official lines) today ahead fuel h0 hs
  refine ⟨hhead, hrest, fun x hx => ?_⟩
  have h2 := (is_workday_true_iff official lines x).1 (mem_upcoming hx).1
  simpa [saturday, sunday] using h2

/-- Witness for C2 at a concrete run: no holidays, today = ordinal 8 (a
Monday), two workdays ahead within a three-day window. -/
theorem C2_witness :
    (0 : Int) ≤ 2 ∧
    (2 : Int).toNat ≤ ((upRange (8 + 1) 3).filter (is_workday (fun _ => "") [])).length ∧
    UpcomingClaim (fun _ => "") [] 8 2 3 :=
  ⟨by decide, by decide, C2_upcoming_workdays (fun _ => "") [] 8 2 3 (by decide) (by decide)⟩

/-- C3: `is_workday(d)` is true exactly when the weekday of `d` is neither
Saturday nor Sunday and `is_holiday(d)` is false. -/
theorem C3_is_workday_iff (official : Nat → String) (lines : List String) (n : Nat) :
    is_workday official lines n = true ↔
      pyWeekday n ≠ saturday ∧ pyWeekday n ≠ sunday ∧ is_holiday official lines n = false := by
  simpa [saturday, sunday] using is_workday_true_iff official lines n

/-- C9: for a non-positive `workdays_ahead`, `get_upcoming_workdays` yields
today exactly when today is a workday, and nothing else. -/
theorem C9_upcoming_nonpositive (isWd : Nat → Bool) (today : Nat) (ahead : Int)
    (fuel : Nat) (h : ahead ≤ 0) :
    get_upcoming_workdays isWd today ahead fuel = if isWd today then [today] else [] := by
  rw [get_upcoming_eq]
  have h2 : ahead.toNat = 0 := by omega
  simp [h2]

/-- Witness for C9 at a concrete run: budget −3, today = ordinal 8. -/
theorem C9_witness :
    (-3 : Int) ≤ 0 ∧
    get_upcoming_workdays noHolidayWorkday 8 (-3) 5
      = (if noHolidayWorkday 8 then [8] else []) :=
  ⟨by decide, C9_upcoming_nonpositive noHolidayWorkday 8 (-3) 5 (by decide)⟩

/-- C4 (counterexample): for the official name `"a (Observed) b"`, which
carries `" (Observed)"` in the middle rather than as a suffix, and the
holiday file line `"a b"`, the code reports a holiday although the
suffix-stripped name required by the claim is not in the allow-list, so the
claimed equivalence is false at this input. -/
theorem C4_counterexample :
    is_holiday (fun _ => "a (Observed) b") ["a b"] 0 = true ∧
      ¬ stripObservedSuffixSpec ((fun _ : Nat => "a (Observed) b") 0)
          ∈ get_holidays ["a b"] :=
  ⟨rfl, by decide⟩

/-- C4 (amended): `is_holiday(d)` is true iff the jurisdiction's official
holiday name for `d` with *every occurrence* of the literal `" (Observed)"`
removed is a member of the allow-list loaded from the holiday file; a date
with no official holiday name is never a holiday, whatever the file holds. -/
theorem C4_is_holiday_amended (official : Nat → String) (lines : List String) (n : Nat) :
    (is_holiday official lines n = true ↔
      pyReplaceObs (official n) ∈ get_holidays lines) ∧
    (official n = "" → is_holiday official lines n = false) := by
  constructor
  · simp [is_holiday]
  · intro h
    have h2 : pyReplaceObs (official n) = "" := by rw [h]; rfl
    simp [is_holiday, h2, empty_not_mem_get_holidays lines]

/-- Witness for the amended C4: an oracle with no holiday names never
produces a holiday. -/
theorem C4_witness : is_holiday (fun _ => "") ["x"] 0 = false :=
  (C4_is_holiday_amended (fun _ => "") ["x"] 0).2 rfl

theorem daysInMonth_le (y m : Nat) : daysInMonth y m ≤ 31 := by
  unfold daysInMonth
  split_ifs <;> omega

/-- C5: for every valid date, decoding the title produced by the
issue-creation encoding yields exactly that date, and the decoded date does
not depend on what follows the colon. -/
theorem C5_title_roundtrip (d : YMD) (h : dateValid d.year d.month d.day = true) :
    (∀ s : List Char, issue_title_to_date (String.mk (isoChars d ++ ':' :: s)) = .found d) ∧
    issue_title_to_date (create_scrum_issue_title d) = .found d := by
  obtain ⟨h1, h2, h3, h4, h5, h6⟩ := of_decide_eq_true h
  have h7 := daysInMonth_le d.year d.month
  have hiso : ∀ s : List Char,
      issue_title_to_date (String.mk (isoChars d ++ ':' :: s)) = .found d := by
    intro s
    have hm : matchDate (String.mk (isoChars d ++ ':' :: s))
        = some (d.year, d.month, d.day) :=
      matchDate_iso s (by omega) (by omega) (by omega)
    simp [issue_title_to_date, hm, h]
  exact ⟨hiso, hiso (titleTail d).data⟩

/-- Witness for C5: the date 2024-03-04, whose generated title is
`"2024-03-04: e-scrum for Monday, March 4, 2024"`. -/
theorem C5_witness :
    dateValid 2024 3 4 = true ∧
      issue_title_to_date (create_scrum_issue_title ⟨2024, 3, 4⟩) = .found ⟨2024, 3, 4⟩ :=
  ⟨by decide, (C5_title_roundtrip ⟨2024, 3, 4⟩ (by decide)).2⟩

/-- C6: a title decodes to "no date" (silently, not an error) exactly when
its prefix is not four digits, dash, two digits, dash, two digits, colon;
when the prefix matches but the three numbers fail date construction, the
result is the value-error outcome, and that error propagates out of
`close_old_issues` as a fatal failure instead of the issue being skipped. -/
theorem C6_decode_classification (t : String) :
    (issue_title_to_date t = .noDate ↔
      ¬ ∃ (y m d : Nat) (s : List Char), y ≤ 9999 ∧ m ≤ 99 ∧ d ≤ 99 ∧
        t = String.mk (isoChars ⟨y, m, d⟩ ++ ':' :: s)) ∧
    (∀ y m d : Nat, matchDate t = some (y, m, d) → dateValid y m d = false →
      issue_title_to_date t = .valueError) ∧
    (∀ (today : Nat) (titles : List String) (lifespan : Int), t ∈ titles →
      issue_title_to_date t = .valueError →
      close_old_issues today titles lifespan = .error ()) := by
  refine ⟨?_, ?_, fun today titles lifespan ht he => close_error_of_mem ht he⟩
  · rw [decode_noDate_iff]
    constructor
    · intro hnone
      rintro ⟨y, m, d, s, hy, hm, hd, rfl⟩
      rw [matchDate_iso s hy hm hd] at hnone
      exact Option.noConfusion hnone
    · intro hne
      cases hmd : matchDate t with
      | none => rfl
      | some r =>
        obtain ⟨y, m, d⟩ := r
        obtain ⟨hy, hm, hd, s, hs⟩ := matchDate_some_inv hmd
        refine absurd ⟨y, m, d, s, hy, hm, hd, ?_⟩ hne
        obtain ⟨l⟩ := t
        exact congrArg String.mk hs
  · intro y m d hmd hvalid
    simp [issue_title_to_date, hmd, hvalid]

/-- Witness for C6: the corrupt title `"2024-02-30: bad"` (February has no
day 30) produces the fatal value-error outcome and aborts the closing pass. -/
theorem C6_witness :
    issue_title_to_date "2024-02-30: bad" = .valueError ∧
      close_old_issues 738957 ["2024-02-30: bad"] 7 = .error () := by
  have h := (C6_decode_classification "2024-02-30: bad").2.1 2024 2 30 rfl (by decide)
  exact ⟨h, (C6_decode_classification "2024-02-30: bad").2.2 738957
    ["2024-02-30: bad"] 7 (by simp) h⟩

/-- C7: `close_old_issues` requests the closed state for exactly the issues
whose title decodes to a date strictly more than `lifespan` days before
today, in order, skipping issues whose title does not decode. -/
theorem C7_close_old_issues (today : Nat) (titles : List String) (lifespan : Int)
    (hT : ∀ t ∈ titles, issue_title_to_date t ≠ TitleDate.valueError) :
    close_old_issues today titles lifespan = .ok (titles.filter fun t =>
      match issue_title_to_date t with
      | .found d => decide ((today : Int) - (toOrdinal d : Int) > lifespan)
      | _ => false) := by
  induction titles with
  | nil => rfl
  | cons t ts ih =>
    have ih2 := ih (fun u hu => hT u (List.mem_cons_of_mem _ hu))
    cases hdec : issue_title_to_date t with
    | noDate => simp [close_old_issues, hdec, ih2, List.filter_cons]
    | valueError => exact absurd hdec (hT t (List.mem_cons_self _ _))
    | found d =>
      by_cases hold : (today : Int) - (toOrdinal d : Int) > lifespan
      · simp [close_old_issues, hdec, ih2, List.filter_cons, hold]
      · simp [close_old_issues, hdec, ih2, List.filter_cons, hold]

/-- Witness for C7, the claim's scenario: the issue titled
`"2024-03-04: e-scrum for Monday, March 4, 2024"` is 8 days old on
2024-03-12 (ordinal 738957) and is closed under lifespan 7. -/
theorem C7_witness :
    close_old_issues (toOrdinal ⟨2024, 3, 12⟩)
        ["2024-03-04: e-scrum for Monday, March 4, 2024"] 7
      = .ok ["2024-03-04: e-scrum for Monday, March 4, 2024"] := by
  rw [C7_close_old_issues _ _ _ (by decide)]
  rfl

/-- C1: when every issue title either decodes to a date or misses the
date-prefix pattern, `get_future_dates_without_issues` returns exactly the
upcoming workdays minus the decoded title dates, strictly ascending with no
duplicates, every returned date a genuine workday and none equal to a
decoded title date. -/
theorem C1_future_dates (official : Nat → String) (lines : List String) (today : Nat)
    (titles : List String) (ahead : Int) (fuel : Nat)
    (hT : ∀ t ∈ titles, issue_title_to_date t ≠ TitleDate.valueError) :
    FutureDatesClaim official lines today titles ahead fuel := by
  obtain ⟨ds, hds, hmem⟩ := datesFromTitles_ok hT
  have hres : get_future_dates_without_issues (is_workday official lines) today titles
        ahead fuel
      = .ok ((((get_upcoming_workdays (is_workday official lines) today ahead fuel).filter
          (fun x => decide (¬ x ∈ ds))).dedup).insertionSort (· ≤ ·)) := by
    simp [get_future_dates_without_issues, hds]
  have hperm : List.Perm
      ((((get_upcoming_workdays (is_workday official lines) today ahead fuel).filter
          (fun x => decide (¬ x ∈ ds))).dedup).insertionSort (· ≤ ·))
      (((get_upcoming_workdays (is_workday official lines) today ahead fuel).filter
          (fun x => decide (¬ x ∈ ds))).dedup) := List.perm_insertionSort _ _
  have hnodup := hperm.nodup_iff.2 (List.nodup_dedup _)
  have hsortedle : List.Sorted (· ≤ ·)
      ((((get_upcoming_workdays (is_workday official lines) today ahead fuel).filter
          (fun x => decide (¬ x ∈ ds))).dedup).insertionSort (· ≤ ·)) :=
    List.sorted_insertionSort _ _
  have hmeml : ∀ x, x ∈ (((get_upcoming_workdays (is_workday official lines) today ahead
          fuel).filter (fun x => decide (¬ x ∈ ds))).dedup).insertionSort (· ≤ ·)
      ↔ x ∈ get_upcoming_workdays (is_workday official lines) today ahead fuel
          ∧ x ∉ ds := by
    intro x
    rw [hperm.mem_iff, List.mem_dedup, List.mem_filter, decide_eq_true_eq]
  refine ⟨_, hres, pairwise_lt_of_le_nodup hsortedle hnodup, fun x => ?_, fun x hx => ?_⟩
  · rw [hmeml x]
    constructor
    · rintro ⟨hu, hnd⟩
      exact ⟨hu, fun t ht d hd heq => hnd ((hmem x).2 ⟨t, ht, d, hd, heq⟩)⟩
    · rintro ⟨hu, hforall⟩
      refine ⟨hu, fun hin => ?_⟩
      obtain ⟨t, ht, d, hd, heq⟩ := (hmem x).1 hin
      exact hforall t ht d hd heq
  · exact (mem_upcoming ((hmeml x).1 hx).1).1

/-- Witness for C1: no holidays, today = ordinal 8, one open issue whose
title decodes to ordinal 9. -/
theorem C1_witness :
    (∀ t ∈ ["0001-01-09: x"], issue_title_to_date t ≠ TitleDate.valueError) ∧
    FutureDatesClaim (fun _ => "") [] 8 ["0001-01-09: x"] 2 3 :=
  ⟨by decide, C1_future_dates (fun _ => "") [] 8 ["0001-01-09: x"] 2 3 (by decide)⟩

/-- C10: every date the reconciler proposes for issue creation is today or
later, for any workday predicate, issue list and budget. -/
theorem C10_no_past_dates (isWd : Nat → Bool) (today : Nat) (titles : List String)
    (ahead : Int) (fuel : Nat) (l : List Nat)
    (h : get_future_dates_without_issues isWd today titles ahead fuel = .ok l) :
    ∀ x ∈ l, today ≤ x := by
  intro x hx
  unfold get_future_dates_without_issues at h
  cases hds : datesFromTitles titles with
  | error e => rw [hds] at h; exact Except.noConfusion h
  | ok ds =>
    rw [hds] at h
    injection h with h
    subst h
    have hperm := List.perm_insertionSort (· ≤ · : Nat → Nat → Prop)
      (((get_upcoming_workdays isWd today ahead fuel).filter
          (fun x => decide (¬ x ∈ ds))).dedup)
    have hup := List.mem_of_mem_filter (List.mem_dedup.1 (hperm.mem_iff.1 hx))
    exact (mem_upcoming hup).2

/-- Witness for C10 at a concrete run: the reconciler proposes ordinals 8, 9
and 10 for today = ordinal 8, all of them at or after today. -/
theorem C10_witness :
    get_future_dates_without_issues noHolidayWorkday 8 [] 2 3 = .ok [8, 9, 10] ∧ 8 ≤ 9 :=
  ⟨rfl, C10_no_past_dates noHolidayWorkday 8 [] 2 3 [8, 9, 10] rfl 9 (by simp)⟩

/-- C8: in the operation sequence of a completed run, no create operation is
followed by a close operation: all closes happen before all creates. -/
theorem C8_closes_before_creates (isWd : Nat → Bool) (today : Nat) (titles : List String)
    (lifespan ahead : Int) (fuel : Nat) (tr : List ScrumOp)
    (h : mainTrace isWd today titles lifespan ahead fuel = .ok tr)
    (i j : Nat) (hi : i < tr.length) (hj : j < tr.length) (hij : i < j)
    (hcreate : (tr.get ⟨i, hi⟩).isCreateOp = true) :
    (tr.get ⟨j, hj⟩).isCloseOp = false := by
  unfold mainTrace at h
  cases hcl : close_old_issues today titles lifespan with
  | error e => rw [hcl] at h; exact Except.noConfusion h
  | ok closed =>
    rw [hcl] at h
    cases hfd : get_future_dates_without_issues isWd today titles ahead fuel with
    | error e => rw [hfd] at h; exact Except.noConfusion h
    | ok ds =>
      rw [hfd] at h
      injection h with h
      subst h
      have hlenlt : (closed.map ScrumOp.closeOp).length
            + (ds.map ScrumOp.createOp).length
          = (closed.map ScrumOp.closeOp ++ ds.map ScrumOp.createOp).length := by
        simp
      have hlen : (closed.map ScrumOp.closeOp).length ≤ i := by
        by_contra hlt
        push_neg at hlt
        have hget : (closed.map ScrumOp.closeOp ++ ds.map ScrumOp.createOp).get ⟨i, hi⟩
            = (closed.map ScrumOp.closeOp).get ⟨i, hlt⟩ := by
          simp [List.getElem_append_left hlt]
        rw [hget] at hcreate
        obtain ⟨u, _, hu⟩ :=
          List.mem_map.1 (List.get_mem (closed.map ScrumOp.closeOp) i hlt)
        rw [← hu] at hcreate
        exact Bool.noConfusion hcreate
      have hjlen : (closed.map ScrumOp.closeOp).length ≤ j := by omega
      have hjb : j - (closed.map ScrumOp.closeOp).length
          < (ds.map ScrumOp.createOp).length := by omega
      have hget : (closed.map ScrumOp.closeOp ++ ds.map ScrumOp.createOp).get ⟨j, hj⟩
          = (ds.map ScrumOp.createOp).get
              ⟨j - (closed.map ScrumOp.closeOp).length, hjb⟩ := by
        simp [List.getElem_append_right hjlen]
      rw [hget]
      obtain ⟨u, _, hu⟩ := List.mem_map.1 (List.get_mem (ds.map ScrumOp.createOp) _ hjb)
      rw [← hu]
      rfl

/-- Witness for C8 at a concrete run with trace
`[createOp 8, createOp 9]`. -/
theorem C8_witness :
    mainTrace noHolidayWorkday 8 [] 7 1 2 = .ok [ScrumOp.createOp 8, ScrumOp.createOp 9] ∧
    (([ScrumOp.createOp 8, ScrumOp.createOp 9].get ⟨1, by decide⟩).isCloseOp = false) :=
  ⟨rfl, C8_closes_before_creates noHolidayWorkday 8 [] 7 1 2
    [ScrumOp.createOp 8, ScrumOp.createOp 9] rfl 0 1 (by decide) (by decide) (by decide)
    (by decide)⟩
